import Mathlib

/-!
Verification development for the GitHub-Repo-Analyzer repository.

The repository has two Python source files, `github_analyzer.py` and
`scrapping.py`, each containing a variant of the same crawling pipeline:
resolve a username from a profile URL, enumerate the account's
repositories, fetch a repository's git tree, select source files by
extension and size, fetch and decode file content, embed it and upsert
the vectors into an index.

The embedding below is shallow: every network response is a value of an
explicit response structure, the remote side is a function from request
parameters to responses, Python exceptions are `Except` errors (or an
error component of the result where partial effects must survive), and
Python float division of file sizes is exact rational division (the
sizes involved are exact in binary floating point, so `ℚ` coincides
with the source's arithmetic).  Definitions in namespace `GA` embed
`github_analyzer.py`; definitions in namespace `SC` embed
`scrapping.py`.
-/

/-- One entry of the git tree listing returned by the trees endpoint:
its `type` field ("blob" for a file, "tree" for a directory), its
`path`, and its optional `size` field (directories lack one). -/
structure TreeEntry where
  type : String
  path : String
  size : Option Nat
deriving DecidableEq

/-- An element of the `code_files` list built by `prioritize_files`:
the dict with keys `file` and `size_kb`. -/
structure SelectedFile where
  file : String
  size_kb : ℚ
deriving DecidableEq

/-- Python's `path.endswith(ext)`: `ext` is a suffix of `path`. -/
def endswith (path ext : String) : Bool :=
  ext.toList.isSuffixOf path.toList

/-- The `prioritized_extensions` list, identical in both source files. -/
def prioritized_extensions : List String :=
  [".py", ".js", ".java", ".cpp", ".c", ".ts", ".rb", ".php"]

/-- `file_size_kb = file.get('size', 0) / 1024` from `github_analyzer.py`. -/
def GA.sizeKB (f : TreeEntry) : ℚ :=
  (f.size.getD 0 : ℚ) / 1024

/-- The body of the selection loop of `github_analyzer.prioritize_files`
for one tree entry: keep it only if it is a blob, its path ends with a
prioritized extension, and its size in KB is strictly below the ceiling. -/
def GA.selectEntry (exts : List String) (maxKB : ℚ) (f : TreeEntry) : Option SelectedFile :=
  if f.type = "blob" then
    if exts.any (fun ext => endswith f.path ext) then
      if GA.sizeKB f < maxKB then some ⟨f.path, GA.sizeKB f⟩ else none
    else none
  else none

/-- The selection loop of `github_analyzer.prioritize_files`, generalized
over the extension allow-list and the size ceiling (the source fixes
them to `prioritized_extensions` and `1 * 1024`). -/
def GA.filterFiles (exts : List String) (maxKB : ℚ) (files : List TreeEntry) : List SelectedFile :=
  files.filterMap (GA.selectEntry exts maxKB)

/-- The selection loop of `github_analyzer.prioritize_files` with the
source's constants: `prioritized_extensions` and a `1 * 1024` KB ceiling. -/
def GA.code_filter (files : List TreeEntry) : List SelectedFile :=
  GA.filterFiles prioritized_extensions (1 * 1024) files

/-- `file_size_kb = file['size'] / 1024 if 'size' in file else 0`
from `scrapping.py`. -/
def SC.sizeKB (f : TreeEntry) : ℚ :=
  match f.size with
  | some s => (s : ℚ) / 1024
  | none => 0

/-- The body of the selection loop of `scrapping.prioritize_files` for
one tree entry: no blob check, extension and size only. -/
def SC.selectEntry (exts : List String) (maxKB : ℚ) (f : TreeEntry) : Option SelectedFile :=
  if exts.any (fun ext => endswith f.path ext) then
    if SC.sizeKB f < maxKB then some ⟨f.path, SC.sizeKB f⟩ else none
  else none

/-- The selection loop of `scrapping.prioritize_files`, generalized over
the allow-list and the ceiling (the source fixes them to
`prioritized_extensions` and `5 * 1024`). -/
def SC.filterFiles (exts : List String) (maxKB : ℚ) (files : List TreeEntry) : List SelectedFile :=
  files.filterMap (SC.selectEntry exts maxKB)

/-- The selection loop of `scrapping.prioritize_files` with the source's
constants: `prioritized_extensions` and a `5 * 1024` KB ceiling. -/
def SC.code_filter (files : List TreeEntry) : List SelectedFile :=
  SC.filterFiles prioritized_extensions (5 * 1024) files

/-- A `filterMap` whose function is a guarded `some` is a `filter`
followed by a `map`. -/
theorem filterMap_guard_eq (g : TreeEntry → Option SelectedFile) (p : TreeEntry → Bool)
    (h : TreeEntry → SelectedFile)
    (H : ∀ a, g a = if p a then some (h a) else none) :
    ∀ l : List TreeEntry, l.filterMap g = (l.filter p).map h := by
  intro l
  induction l with
  | nil => rfl
  | cons a t ih =>
    rw [List.filterMap_cons, List.filter_cons, H a]
    by_cases hp : p a <;> simp [hp, ih]

theorem GA.selectEntry_blob_guard (exts : List String) (maxKB : ℚ) (f : TreeEntry) :
    GA.selectEntry exts maxKB f =
      if (decide (f.type = "blob") && exts.any (fun ext => endswith f.path ext)
            && decide (GA.sizeKB f < maxKB)) then
        some ⟨f.path, GA.sizeKB f⟩
      else none := by
  unfold GA.selectEntry
  by_cases h1 : f.type = "blob" <;>
    by_cases h2 : exts.any (fun ext => endswith f.path ext) = true <;>
      by_cases h3 : GA.sizeKB f < maxKB <;>
        simp [h1, h2, h3]

theorem SC.selectEntry_plain_guard (exts : List String) (maxKB : ℚ) (f : TreeEntry) :
    SC.selectEntry exts maxKB f =
      if (exts.any (fun ext => endswith f.path ext) && decide (SC.sizeKB f < maxKB)) then
        some ⟨f.path, SC.sizeKB f⟩
      else none := by
  unfold SC.selectEntry
  by_cases h2 : exts.any (fun ext => endswith f.path ext) = true <;>
    by_cases h3 : SC.sizeKB f < maxKB <;>
      simp [h2, h3]

/-- C1 (amended): for every allow-list, every ceiling and every input
sequence of tree entries, the `github_analyzer` selection returns
exactly the entries of type "blob" whose path ends with an allow-listed
extension and whose size in KB (0 when the size field is absent) is
strictly below the ceiling, in input order; the `scrapping` selection
returns exactly the entries satisfying the extension and size
conditions, irrespective of their type, in input order. -/
theorem C1_selection_characterization (exts : List String) (maxKB : ℚ)
    (files : List TreeEntry) :
    GA.filterFiles exts maxKB files =
      (files.filter (fun f => decide (f.type = "blob")
          && exts.any (fun ext => endswith f.path ext)
          && decide (GA.sizeKB f < maxKB))).map (fun f => ⟨f.path, GA.sizeKB f⟩)
    ∧ SC.filterFiles exts maxKB files =
      (files.filter (fun f => exts.any (fun ext => endswith f.path ext)
          && decide (SC.sizeKB f < maxKB))).map (fun f => ⟨f.path, SC.sizeKB f⟩) := by
  constructor
  · exact filterMap_guard_eq _ _ _ (GA.selectEntry_blob_guard exts maxKB) files
  · exact filterMap_guard_eq _ _ _ (SC.selectEntry_plain_guard exts maxKB) files

/-- C1 (counterexample): a the directory entry "a.py" of type "tree"
ends with an allow-listed extension and has size below the ceiling, yet
the `github_analyzer` selection drops it, so the selection does not
return every entry passing the extension and size checks. -/
theorem C1_counterexample :
    GA.code_filter [⟨"tree", "a.py", some 0⟩] = []
    ∧ prioritized_extensions.any (fun ext => endswith "a.py" ext) = true
    ∧ GA.sizeKB ⟨"tree", "a.py", some 0⟩ < 1 * 1024 := by
  refine ⟨rfl, by decide, by norm_num [GA.sizeKB]⟩

/-- C9: every file selected by the `github_analyzer` selection loop
comes from a tree entry whose type field is "blob"; directory entries
are never selected. -/
theorem C9_blob_only (exts : List String) (maxKB : ℚ) (files : List TreeEntry)
    (s : SelectedFile) (hs : s ∈ GA.filterFiles exts maxKB files) :
    ∃ f, f ∈ files ∧ f.type = "blob" ∧ s.file = f.path := by
  rcases List.mem_filterMap.mp hs with ⟨f, hf, hsel⟩
  rw [GA.selectEntry_blob_guard] at hsel
  by_cases hc : (decide (f.type = "blob") && exts.any (fun ext => endswith f.path ext)
      && decide (GA.sizeKB f < maxKB)) = true
  · rw [if_pos hc] at hsel
    obtain ⟨hblob, -⟩ := Bool.and_eq_true_iff.mp (Bool.and_eq_true_iff.mp hc).1
    exact ⟨f, hf, of_decide_eq_true hblob, by rw [← Option.some_inj.mp hsel]⟩
  · rw [if_neg hc] at hsel
    exact absurd hsel (by simp)

theorem C9_blob_only_witness :
    ∃ f, f ∈ [TreeEntry.mk "blob" "a.py" none] ∧ f.type = "blob"
      ∧ (SelectedFile.mk "a.py" 0).file = f.path :=
  C9_blob_only prioritized_extensions 1024 [TreeEntry.mk "blob" "a.py" none]
    ⟨"a.py", 0⟩
    (by norm_num [GA.filterFiles, GA.selectEntry, GA.sizeKB, endswith,
      prioritized_extensions, List.isSuffixOf, List.isPrefixOf, List.filterMap_cons])

/-! ### Branch fallback of `github_analyzer.prioritize_files` (lines 60-83) -/

/-- The response of the git-trees endpoint for one branch: the HTTP
status and the parsed `tree` field (`.get('tree', [])`, so an absent
field is the empty list). -/
structure TreeResp where
  status : Nat
  tree : List TreeEntry
deriving DecidableEq

/-- The two exceptions `github_analyzer.prioritize_files` can raise:
the non-404 upstream failure carrying the status, and the
both-branches-failed error. -/
inductive PFError where
  | upstream (status : Nat)
  | noBranch
deriving DecidableEq

/-- The `for branch in branches` loop of `github_analyzer.prioritize_files`:
`client` maps a branch name to the response of the trees endpoint,
`files` is the accumulator variable (initially `[]`).  A 200 response
assigns the tree and breaks; a 404 on "main" continues; a non-404
failure raises; a 404 on any other branch falls through to the next
iteration. -/
def GA.fetchTreeLoop (client : String → TreeResp) :
    List String → List TreeEntry → Except Nat (List TreeEntry)
  | [], files => .ok files
  | b :: rest, files =>
    let r := client b
    if r.status = 200 then .ok r.tree
    else if r.status = 404 ∧ b = "main" then GA.fetchTreeLoop client rest files
    else if r.status ≠ 404 then .error r.status
    else GA.fetchTreeLoop client rest files

/-- The tree-listing stage of `github_analyzer.prioritize_files`: run
the branch loop over `['main', 'master']` and raise the
both-branches-failed error when `files` is still empty afterwards. -/
def GA.list_files (client : String → TreeResp) : Except PFError (List TreeEntry) :=
  match GA.fetchTreeLoop client ["main", "master"] [] with
  | .error s => .error (.upstream s)
  | .ok files => if files = [] then .error .noBranch else .ok files

/-- The whole of `github_analyzer.prioritize_files`: fetch the tree
with branch fallback, then run the selection loop over it. -/
def GA.prioritize_files (client : String → TreeResp) : Except PFError (List SelectedFile) :=
  (GA.list_files client).map GA.code_filter

/-- C2: with the ordered branch list ['main', 'master'], the first
branch answering 200 with a non-empty tree is used; a 404 on "main"
falls through to "master"; a non-404 failure on either branch raises
the upstream error carrying that status; and when both branches answer
404 or 200 with an empty tree, the call fails with the
no-accessible-branch error. -/
theorem C2_branch_fallback (client : String → TreeResp) :
    ((client "main").status = 200 → (client "main").tree ≠ [] →
      GA.list_files client = .ok (client "main").tree)
    ∧ ((client "main").status = 404 → (client "master").status = 200 →
        (client "master").tree ≠ [] →
      GA.list_files client = .ok (client "master").tree)
    ∧ ((client "main").status ≠ 200 → (client "main").status ≠ 404 →
      GA.list_files client = .error (.upstream (client "main").status))
    ∧ ((client "main").status = 404 → (client "master").status ≠ 200 →
        (client "master").status ≠ 404 →
      GA.list_files client = .error (.upstream (client "master").status))
    ∧ (((client "main").status = 404
          ∨ ((client "main").status = 200 ∧ (client "main").tree = [])) →
       ((client "master").status = 404
          ∨ ((client "master").status = 200 ∧ (client "master").tree = [])) →
      GA.list_files client = .error .noBranch) := by
  refine ⟨?_, ?_, ?_, ?_, ?_⟩
  · intro h1 h2
    simp [GA.list_files, GA.fetchTreeLoop, h1, h2]
  · intro h1 h2 h3
    simp [GA.list_files, GA.fetchTreeLoop, h1, h2, h3]
  · intro h1 h2
    simp [GA.list_files, GA.fetchTreeLoop, h1, h2]
  · intro h1 h2 h3
    simp [GA.list_files, GA.fetchTreeLoop, h1, h2, h3]
  · intro h1 h2
    rcases h1 with h1 | ⟨h1a, h1b⟩ <;> rcases h2 with h2 | ⟨h2a, h2b⟩ <;>
      simp [GA.list_files, GA.fetchTreeLoop, *]

/-- A concrete client where "main" is missing (404) and "master" holds
one blob. -/
def C2client : String → TreeResp :=
  fun b => if b = "master" then ⟨200, [⟨"blob", "a.py", some 100⟩]⟩ else ⟨404, []⟩

theorem C2_branch_fallback_witness :
    GA.list_files C2client = .ok (C2client "master").tree :=
  (C2_branch_fallback C2client).2.1 (by decide) (by decide) (by decide)

/-! ### `extract_username` (github_analyzer.py lines 31-38, scrapping.py lines 5-9)

Both files define the same function: if "github.com/" occurs in the
URL it returns `url.split("github.com/")[1].split('/')[0]`, otherwise
it raises `ValueError("Invalid GitHub profile URL")`.  Strings are
modelled as `List Char`; a separator is passed as head and tail so it
is non-empty by construction. -/

/-- The tail of the separator "github.com/" (its head is 'g'). -/
def ghTail : List Char := "ithub.com/".toList

/-- Python's `sep in s` for the non-empty separator `s0 :: st`. -/
def containsSub (s0 : Char) (st : List Char) : List Char → Bool
  | [] => false
  | c :: rest => (s0 :: st).isPrefixOf (c :: rest) || containsSub s0 st rest

/-- The remainder of `l` after the first occurrence of the separator
`s0 :: st`, or `none` when the separator does not occur. -/
def afterFirst (s0 : Char) (st : List Char) : List Char → Option (List Char)
  | [] => none
  | c :: rest =>
    if (s0 :: st).isPrefixOf (c :: rest) then some (rest.drop st.length)
    else afterFirst s0 st rest

/-- Python's `l.split(s0 :: st)` for a non-empty separator, with a fuel
argument bounding the recursion depth (any fuel at least `l.length`
computes the split; see `pySplitF_fuel`). -/
def pySplitF (s0 : Char) (st : List Char) : Nat → List Char → List (List Char)
  | _, [] => [[]]
  | 0, _ :: _ => [[]]
  | fuel + 1, c :: rest =>
    if (s0 :: st).isPrefixOf (c :: rest) then
      [] :: pySplitF s0 st fuel (rest.drop st.length)
    else
      (c :: (pySplitF s0 st fuel rest).headD []) :: (pySplitF s0 st fuel rest).tail

/-- Python's `l.split(s0 :: st)` for a non-empty separator. -/
def pySplit (s0 : Char) (st : List Char) (l : List Char) : List (List Char) :=
  pySplitF s0 st l.length l

/-- `extract_username`: raise on URLs not containing "github.com/",
otherwise return `url.split("github.com/")[1].split('/')[0]`. -/
def extract_username (github_url : List Char) : Except (List Char) (List Char) :=
  if containsSub 'g' ghTail github_url then
    .ok ((pySplit '/' [] ((pySplit 'g' ghTail github_url).getD 1 [])).headD [])
  else
    .error "Invalid GitHub profile URL".toList

theorem pySplitF_nil (s0 : Char) (st : List Char) (f : Nat) :
    pySplitF s0 st f [] = [[]] := by
  cases f <;> rfl

/-- The fuel argument of `pySplitF` is irrelevant once it reaches the
length of the list being split. -/
theorem pySplitF_fuel (s0 : Char) (st : List Char) :
    ∀ f1 f2 l, l.length ≤ f1 → l.length ≤ f2 →
      pySplitF s0 st f1 l = pySplitF s0 st f2 l := by
  intro f1
  induction f1 with
  | zero =>
    intro f2 l h1 _
    have hl : l = [] := List.length_eq_zero.mp (Nat.le_zero.mp h1)
    subst hl
    rw [pySplitF_nil, pySplitF_nil]
  | succ n ih =>
    intro f2 l h1 h2
    cases l with
    | nil => rw [pySplitF_nil, pySplitF_nil]
    | cons c rest =>
      have hr1 : rest.length ≤ n := by simp at h1; omega
      cases f2 with
      | zero => simp at h2
      | succ m =>
        have hr2 : rest.length ≤ m := by simp at h2; omega
        by_cases hp : (s0 :: st).isPrefixOf (c :: rest) = true
        · simp only [pySplitF, if_pos hp]
          rw [ih m (rest.drop st.length) (by simp; omega) (by simp; omega)]
        · simp only [pySplitF, if_neg hp]
          rw [ih m rest hr1 hr2]

/-- Splitting a list without the separator yields the singleton chunk. -/
theorem pySplit_of_afterFirst_none (s0 : Char) (st : List Char) :
    ∀ l, afterFirst s0 st l = none → pySplit s0 st l = [l] := by
  intro l
  induction l with
  | nil => intro _; rfl
  | cons c rest ih =>
    intro h
    unfold afterFirst at h
    by_cases hp : (s0 :: st).isPrefixOf (c :: rest) = true
    · rw [if_pos hp] at h; exact absurd h (by simp)
    · rw [if_neg hp] at h
      have hr : pySplitF s0 st rest.length rest = [rest] := ih h
      show pySplitF s0 st (c :: rest).length (c :: rest) = [c :: rest]
      simp only [List.length_cons, pySplitF, if_neg hp]
      rw [hr]
      rfl

/-- Splitting a list whose first separator occurrence leaves the
remainder `s` prepends one chunk to the split of `s`. -/
theorem pySplit_of_afterFirst_some (s0 : Char) (st : List Char) :
    ∀ l s, afterFirst s0 st l = some s →
      ∃ X, pySplit s0 st l = X :: pySplit s0 st s := by
  intro l
  induction l with
  | nil => intro s h; exact absurd h (by simp [afterFirst])
  | cons c rest ih =>
    intro s h
    unfold afterFirst at h
    by_cases hp : (s0 :: st).isPrefixOf (c :: rest) = true
    · rw [if_pos hp] at h
      obtain rfl : rest.drop st.length = s := Option.some_inj.mp h
      refine ⟨[], ?_⟩
      show pySplitF s0 st (c :: rest).length (c :: rest) = _
      simp only [List.length_cons, pySplitF, if_pos hp]
      rw [pySplitF_fuel s0 st rest.length (rest.drop st.length).length
        (rest.drop st.length) (by simp) le_rfl]
      rfl
    · rw [if_neg hp] at h
      obtain ⟨X, hX⟩ := ih s h
      refine ⟨c :: X, ?_⟩
      show pySplitF s0 st (c :: rest).length (c :: rest) = _
      simp only [List.length_cons, pySplitF, if_neg hp]
      rw [show pySplitF s0 st rest.length rest = X :: pySplit s0 st s from hX]
      rfl

/-- The separator occurs in `l` exactly when `afterFirst` finds it. -/
theorem containsSub_iff_afterFirst (s0 : Char) (st : List Char) :
    ∀ l, containsSub s0 st l = true ↔ ∃ s, afterFirst s0 st l = some s := by
  intro l
  induction l with
  | nil => simp [containsSub, afterFirst]
  | cons c rest ih =>
    by_cases hp : (s0 :: st).isPrefixOf (c :: rest) = true <;>
      simp [containsSub, afterFirst, hp, ih]

/-- Unfolding of `pySplit` on a list whose head does not start the
separator. -/
theorem pySplit_cons_no_sep (s0 : Char) (st : List Char) (c : Char) (rest : List Char)
    (hp : ¬ (s0 :: st).isPrefixOf (c :: rest) = true) :
    pySplit s0 st (c :: rest) =
      (c :: (pySplit s0 st rest).headD []) :: (pySplit s0 st rest).tail := by
  show pySplitF s0 st (c :: rest).length (c :: rest) = _
  simp only [List.length_cons, pySplitF, if_neg hp]
  rfl

/-- Splitting a list starting with '/' at '/' begins with an empty chunk. -/
theorem pySplit_slash_cons (y : List Char) :
    pySplit '/' [] ('/' :: y) = [] :: pySplit '/' [] y := by
  show pySplitF '/' [] (y.length + 1) ('/' :: y) = _
  have hp : (['/'] : List Char).isPrefixOf ('/' :: y) = true := by
    simp [List.isPrefixOf]
  simp only [pySplitF, if_pos hp]
  simp only [List.length_nil, List.drop_zero]
  rfl

/-- The first chunk of a split at '/' contains no '/'. -/
theorem slash_head_no_slash :
    ∀ f l, l.length ≤ f → '/' ∉ (pySplitF '/' [] f l).headD [] := by
  intro f
  induction f with
  | zero =>
    intro l h
    have hl : l = [] := List.length_eq_zero.mp (Nat.le_zero.mp h)
    subst hl
    simp [pySplitF_nil]
  | succ n ih =>
    intro l h
    cases l with
    | nil => simp [pySplitF_nil]
    | cons c rest =>
      have hr : rest.length ≤ n := by simp at h; omega
      by_cases hp : (['/'] : List Char).isPrefixOf (c :: rest) = true
      · simp only [pySplitF, if_pos hp]
        simp
      · simp only [pySplitF, if_neg hp]
        have hc : ¬ c = '/' := by
          intro hc; subst hc
          simp [List.isPrefixOf] at hp
        simp only [List.headD_cons, List.mem_cons]
        rintro (h1 | h2)
        · exact hc h1.symm
        · exact ih rest hr h2

/-- C8: `extract_username` raises the invalid-reference error exactly
when the URL does not contain "github.com/"; on success the returned
account name contains no '/' (it is the segment before the next '/');
in particular the repository's own example URL yields "Akki-58". -/
theorem C8_invalid_iff_unparseable (url : List Char) :
    (extract_username url = .error "Invalid GitHub profile URL".toList
      ↔ containsSub 'g' ghTail url = false)
    ∧ (∀ u, extract_username url = .ok u → '/' ∉ u)
    ∧ extract_username "https://github.com/Akki-58/".toList = .ok "Akki-58".toList := by
  refine ⟨?_, ?_, rfl⟩
  · unfold extract_username
    by_cases hc : containsSub 'g' ghTail url = true <;> simp [hc]
  · intro u hu
    unfold extract_username at hu
    by_cases hc : containsSub 'g' ghTail url = true
    · rw [if_pos hc] at hu
      obtain rfl := Except.ok.inj hu
      exact slash_head_no_slash _ _ le_rfl
    · rw [if_neg hc] at hu
      exact absurd hu (by simp)

theorem C8_witness : '/' ∉ "Akki-58".toList :=
  (C8_invalid_iff_unparseable "https://github.com/Akki-58/".toList).2.1
    "Akki-58".toList rfl

/-- C10: when the first occurrence of "github.com/" in the URL is
followed by nothing or immediately by another '/', `extract_username`
returns the empty account name instead of raising. -/
theorem C10_empty_username (url s : List Char)
    (h1 : afterFirst 'g' ghTail url = some s)
    (h2 : s = [] ∨ ∃ t, s = '/' :: t) :
    extract_username url = .ok [] := by
  have hc : containsSub 'g' ghTail url = true :=
    (containsSub_iff_afterFirst 'g' ghTail url).mpr ⟨s, h1⟩
  obtain ⟨X, hX⟩ := pySplit_of_afterFirst_some 'g' ghTail url s h1
  unfold extract_username
  rw [if_pos hc, hX]
  rcases h2 with rfl | ⟨t2, rfl⟩
  · rfl
  · have hp : ¬ ('g' :: ghTail).isPrefixOf ('/' :: t2) = true := by
      simp [List.isPrefixOf]
    rw [pySplit_cons_no_sep 'g' ghTail '/' t2 hp]
    simp only [List.getD_cons_succ, List.getD_cons_zero]
    rw [pySplit_slash_cons]
    rfl

theorem C10_witness : extract_username "https://github.com/".toList = .ok [] :=
  C10_empty_username "https://github.com/".toList [] rfl (Or.inl rfl)

/-! ### The github_analyzer pipeline (lines 106-187)

`get_file_content` returns the base64-decoded text on a 200 response
and `None` otherwise; a decode failure is an uncaught exception.
`store_prioritized_files_in_pinecone` loops over the selected files,
skipping falsy content; `analyze_and_store_in_pinecone` wraps the whole
run in one try/except, so any uncaught exception ends the run (upserts
already performed persist).  The remote side and the decode and
embedding functions are supplied by an environment record; an uncaught
Python exception is the error component of the result. -/

/-- The response of the contents endpoint: HTTP status and the
`content` field of the JSON body (`.get('content', '')`). -/
structure ContentResp where
  status : Nat
  content : String
deriving DecidableEq

/-- One vector upserted into the index: the id `repo_name/file_path`,
the embedding, and the metadata fields. -/
structure Record where
  id : String
  vector : List ℚ
  repo_name : String
  file_path : String
deriving DecidableEq

/-- The environment of one `analyze_and_store_in_pinecone` run: the
input profile URL, the repositories response for the resolved user, the
trees endpoint (repo then branch), the contents endpoint (repo then
path), the base64+utf8 decoder and the embedding model (each may raise,
modelled as `Except`). -/
structure GAEnv where
  profile_url : List Char
  reposStatus : Nat
  reposList : List String
  tree : String → String → TreeResp
  content : String → String → ContentResp
  decode : String → Except Unit String
  embed : String → Except Unit (List ℚ)

/-- The ways a run can end early: each constructor is one uncaught
exception reaching the try/except of `analyze_and_store_in_pinecone`. -/
inductive RunError where
  | invalidUrl
  | reposFailed (status : Nat)
  | treeUpstream (repo : String) (status : Nat)
  | noBranch (repo : String)
  | fileException (repo : String)
deriving DecidableEq

/-- `get_file_content`: on a 200 response decode the content field (a
decode exception propagates); otherwise print and return `None`. -/
def GA.get_file_content (env : GAEnv) (repo path : String) : Except Unit (Option String) :=
  let r := env.content repo path
  if r.status = 200 then
    match env.decode r.content with
    | .ok s => .ok (some s)
    | .error e => .error e
  else .ok none

/-- The loop of `store_prioritized_files_in_pinecone`: for each file
fetch the content, skip the file when the content is falsy (`None` or
empty), otherwise embed and upsert; an exception from the content
fetch or the embedding aborts the loop, discarding no earlier upsert. -/
def GA.store_files (env : GAEnv) (repo : String) :
    List SelectedFile → List Record × Option Unit
  | [] => ([], none)
  | f :: fs =>
    match GA.get_file_content env repo f.file with
    | .error _ => ([], some ())
    | .ok none => GA.store_files env repo fs
    | .ok (some s) =>
      if s = "" then GA.store_files env repo fs
      else
        match env.embed s with
        | .error _ => ([], some ())
        | .ok v =>
          let rest := GA.store_files env repo fs
          (⟨repo ++ "/" ++ f.file, v, repo, f.file⟩ :: rest.1, rest.2)

/-- The `for repo in repos` loop of `analyze_and_store_in_pinecone`:
an exception from `prioritize_files` or from the store loop propagates
to the surrounding try/except, ending the loop; upserts performed
before the exception persist. -/
def GA.processRepos (env : GAEnv) : List String → List Record × Option RunError
  | [] => ([], none)
  | r :: rs =>
    match GA.prioritize_files (env.tree r) with
    | .error (.upstream s) => ([], some (.treeUpstream r s))
    | .error .noBranch => ([], some (.noBranch r))
    | .ok files =>
      let res := GA.store_files env r files
      match res.2 with
      | some _ => (res.1, some (.fileException r))
      | none =>
        let rest := GA.processRepos env rs
        (res.1 ++ rest.1, rest.2)

/-- `analyze_and_store_in_pinecone`: resolve the username, fetch the
repository list, process each repository; the single try/except turns
the first uncaught exception into the end of the run. -/
def GA.analyze_and_store (env : GAEnv) : List Record × Option RunError :=
  match extract_username env.profile_url with
  | .error _ => ([], some .invalidUrl)
  | .ok _ =>
    if env.reposStatus ≠ 200 then ([], some (.reposFailed env.reposStatus))
    else GA.processRepos env env.reposList

/-- A trees endpoint where only repository "r2" has a branch: "r2" has
one small blob on "main", every other request is 404. -/
def cexTree : String → String → TreeResp := fun repo branch =>
  if repo = "r2" ∧ branch = "main" then ⟨200, [⟨"blob", "a.py", none⟩]⟩ else ⟨404, []⟩

def cexContent : String → String → ContentResp := fun _ _ => ⟨200, "Y29kZQ=="⟩

def cexDecode : String → Except Unit String := fun _ => .ok "code"

def cexEmbed : String → Except Unit (List ℚ) := fun _ => .ok [1]

/-- A run over ["r1", "r2"] where "r1" has no accessible branch and
"r2" is fully processable. -/
def cexEnvA : GAEnv :=
  ⟨"github.com/u".toList, 200, ["r1", "r2"], cexTree, cexContent, cexDecode, cexEmbed⟩

/-- The same environment restricted to the repository "r2" alone. -/
def cexEnvB : GAEnv :=
  ⟨"github.com/u".toList, 200, ["r2"], cexTree, cexContent, cexDecode, cexEmbed⟩

theorem cex_selection : GA.code_filter [⟨"blob", "a.py", none⟩] = [⟨"a.py", 0⟩] := by
  norm_num [GA.code_filter, GA.filterFiles, GA.selectEntry, GA.sizeKB, endswith,
    prioritized_extensions, List.isSuffixOf, List.isPrefixOf, List.filterMap_cons]

theorem cex_prioritize_r1 : GA.prioritize_files (cexTree "r1") = .error .noBranch := by
  simp [GA.prioritize_files, GA.list_files, GA.fetchTreeLoop, cexTree, Except.map]

theorem cex_prioritize_r2 : GA.prioritize_files (cexTree "r2") = .ok [⟨"a.py", 0⟩] := by
  simp [GA.prioritize_files, GA.list_files, GA.fetchTreeLoop, cexTree, Except.map,
    cex_selection]

theorem cex_store_r2 :
    GA.store_files cexEnvB "r2" [⟨"a.py", 0⟩] =
      ([⟨"r2" ++ "/" ++ "a.py", [1], "r2", "a.py"⟩], none) := by
  simp [GA.store_files, GA.get_file_content, cexEnvB, cexContent, cexDecode, cexEmbed]

/-- A run whose username resolution and repository listing succeed
reduces to the repository loop. -/
theorem GA.analyze_run_eq (env : GAEnv) (u : List Char)
    (hex : extract_username env.profile_url = .ok u) (hst : env.reposStatus = 200) :
    GA.analyze_and_store env = GA.processRepos env env.reposList := by
  simp [GA.analyze_and_store, hex, hst]

theorem cex_process_A :
    GA.processRepos cexEnvA ["r1", "r2"] = ([], some (.noBranch "r1")) := by
  have h : GA.prioritize_files (cexEnvA.tree "r1") = .error .noBranch := cex_prioritize_r1
  simp [GA.processRepos, h]

theorem cex_process_B :
    GA.processRepos cexEnvB ["r2"] =
      ([⟨"r2" ++ "/" ++ "a.py", [1], "r2", "a.py"⟩], none) := by
  have h : GA.prioritize_files (cexEnvB.tree "r2") = .ok [⟨"a.py", 0⟩] := cex_prioritize_r2
  simp [GA.processRepos, h, cex_store_r2]

/-- C3 (counterexample): in the concrete run `cexEnvA`, the repository
"r1" fails its file listing and the run ends there, so nothing of the
processable repository "r2" is indexed, although the run `cexEnvB`
over "r2" alone indexes its file; a repository-scoped failure aborts
the processing of the remaining repositories. -/
theorem C3_counterexample :
    GA.analyze_and_store cexEnvA = ([], some (.noBranch "r1"))
    ∧ (GA.analyze_and_store cexEnvB).1.map (fun rec => rec.file_path) = ["a.py"]
    ∧ (GA.analyze_and_store cexEnvB).2 = none := by
  have hA : GA.analyze_and_store cexEnvA = GA.processRepos cexEnvA ["r1", "r2"] :=
    GA.analyze_run_eq cexEnvA "u".toList rfl rfl
  have hB : GA.analyze_and_store cexEnvB = GA.processRepos cexEnvB ["r2"] :=
    GA.analyze_run_eq cexEnvB "u".toList rfl rfl
  rw [hA, hB, cex_process_A, cex_process_B]
  refine ⟨rfl, by simp, rfl⟩

/-- C3 (amended): a content-fetch failure (non-200 response) on one
file is skipped and the repository's remaining files are still
processed; but a file-listing failure on one repository ends the whole
run (none of the remaining repositories is processed), and an
embedding failure on one file likewise ends the run. -/
theorem C3_failure_scoping (env : GAEnv) (r : String) (rs : List String)
    (f : SelectedFile) (fs : List SelectedFile) (s : String) :
    ((env.content r f.file).status ≠ 200 →
      GA.store_files env r (f :: fs) = GA.store_files env r fs)
    ∧ (GA.prioritize_files (env.tree r) = .error .noBranch →
      GA.processRepos env (r :: rs) = ([], some (.noBranch r)))
    ∧ (∀ st, GA.prioritize_files (env.tree r) = .error (.upstream st) →
      GA.processRepos env (r :: rs) = ([], some (.treeUpstream r st)))
    ∧ (GA.get_file_content env r f.file = .ok (some s) → ¬ s = "" →
        env.embed s = .error () →
      GA.store_files env r (f :: fs) = ([], some ())) := by
  refine ⟨?_, ?_, ?_, ?_⟩
  · intro h
    simp [GA.store_files, GA.get_file_content, h]
  · intro h
    simp [GA.processRepos, h]
  · intro st h
    simp [GA.processRepos, h]
  · intro h1 h2 h3
    simp [GA.store_files, h1, h2, h3]

theorem C3_failure_scoping_witness :
    GA.processRepos cexEnvA ["r1", "r2"] = ([], some (.noBranch "r1")) :=
  (C3_failure_scoping cexEnvA "r1" ["r2"] ⟨"", 0⟩ [] "").2.1
    (by simp [cexEnvA]; exact cex_prioritize_r1)

/-- A contents endpoint whose "a.py" body fails to decode while every
other body decodes. -/
def c6Content : String → String → ContentResp :=
  fun _ p => if p = "a.py" then ⟨200, "BAD"⟩ else ⟨200, "R29vZA=="⟩

def c6Decode : String → Except Unit String :=
  fun c => if c = "BAD" then .error () else .ok "good"

def c6Env : GAEnv :=
  ⟨"github.com/u".toList, 200, ["r"], cexTree, c6Content, c6Decode, cexEmbed⟩

/-- C6 (counterexample): in the concrete environment `c6Env`, the file
"a.py" gets a 200 response whose body fails to decode; the decode
failure is an uncaught exception that ends the store loop, so the
following file "b.py" is not processed — although "b.py" alone is
processed fine.  A decode failure does not yield a skipped file. -/
theorem C6_counterexample :
    GA.store_files c6Env "r" [⟨"a.py", 0⟩, ⟨"b.py", 0⟩] = ([], some ())
    ∧ (GA.store_files c6Env "r" [⟨"b.py", 0⟩]).1.map (fun rec => rec.file_path) = ["b.py"]
    ∧ (GA.store_files c6Env "r" [⟨"b.py", 0⟩]).2 = none := by
  refine ⟨?_, ?_, ?_⟩ <;>
    simp [GA.store_files, GA.get_file_content, c6Env, c6Content, c6Decode, cexEmbed]

/-- C6 (amended): `get_file_content` decodes the base64 content field
and returns the text on a 200 response with a successful decode; on a
non-success response it returns `None` and the caller skips that one
file and continues; but on a decode failure the exception propagates
uncaught and the caller's loop aborts, processing none of the
remaining files. -/
theorem C6_content_failure_handling (env : GAEnv) (repo : String)
    (f : SelectedFile) (fs : List SelectedFile) :
    ((env.content repo f.file).status ≠ 200 →
      GA.get_file_content env repo f.file = .ok none)
    ∧ (∀ s, (env.content repo f.file).status = 200 →
        env.decode (env.content repo f.file).content = .ok s →
      GA.get_file_content env repo f.file = .ok (some s))
    ∧ ((env.content repo f.file).status = 200 →
        env.decode (env.content repo f.file).content = .error () →
      GA.get_file_content env repo f.file = .error ())
    ∧ (GA.get_file_content env repo f.file = .ok none →
      GA.store_files env repo (f :: fs) = GA.store_files env repo fs)
    ∧ (GA.get_file_content env repo f.file = .error () →
      GA.store_files env repo (f :: fs) = ([], some ())) := by
  refine ⟨?_, ?_, ?_, ?_, ?_⟩
  · intro h
    simp [GA.get_file_content, h]
  · intro s h1 h2
    simp [GA.get_file_content, h1, h2]
  · intro h1 h2
    simp [GA.get_file_content, h1, h2]
  · intro h
    simp [GA.store_files, h]
  · intro h
    simp [GA.store_files, h]

theorem C6_witness : GA.get_file_content c6Env "r" "a.py" = .error () :=
  (C6_content_failure_handling c6Env "r" ⟨"a.py", 0⟩ []).2.2.1
    (by simp [c6Env, c6Content]) (by simp [c6Env, c6Content, c6Decode])

/-! ### Repository enumeration (github_analyzer.py lines 41-53) -/

/-- One response of the repositories endpoint: the HTTP status, the
repository entries of the page, and whether a next-page link is
present. -/
structure RepoPage where
  status : Nat
  repos : List String
  hasNext : Bool
deriving DecidableEq

/-- `get_repositories` of `github_analyzer.py`: one GET of the
repositories URL (the first page), an exception carrying the status on
a non-200 response, the parsed body otherwise.  `fetch` maps a page
number to the upstream response; the single unparameterized request
returns page 1. -/
def GA.get_repositories (fetch : Nat → RepoPage) : Except Nat (List String) :=
  let r := fetch 1
  if r.status ≠ 200 then .error r.status else .ok r.repos

/-- Modelled from the spec: "Must transparently follow pagination links
until exhausted; returns the full, order-preserving concatenation of
all pages. Fails with UpstreamError on a non-success status."  The
source has no pagination at all; this definition follows the spec's
words, with a page bound for termination, to compare the two. -/
def spec_list_repositories (fetch : Nat → RepoPage) : Nat → Nat → Except Nat (List String)
  | _, 0 => .ok []
  | page, fuel + 1 =>
    let r := fetch page
    if r.status ≠ 200 then .error r.status
    else if r.hasNext then
      match spec_list_repositories fetch (page + 1) fuel with
      | .error s => .error s
      | .ok rest => .ok (r.repos ++ rest)
    else .ok r.repos

/-- A two-page upstream: page 1 holds "a" and links to page 2, which
holds "b" and is the last page. -/
def c4Fetch : Nat → RepoPage :=
  fun n => if n = 1 then ⟨200, ["a"], true⟩ else ⟨200, ["b"], false⟩

/-- C4 (counterexample): on the two-page upstream `c4Fetch` the code
returns only the first page, not the concatenation of all pages that
following the pagination links until exhausted would return. -/
theorem C4_counterexample :
    GA.get_repositories c4Fetch = .ok ["a"]
    ∧ spec_list_repositories c4Fetch 1 2 = .ok ["a", "b"]
    ∧ GA.get_repositories c4Fetch ≠ spec_list_repositories c4Fetch 1 2 := by
  refine ⟨rfl, ?_, ?_⟩
  · simp [spec_list_repositories, c4Fetch]
  · intro h
    rw [show GA.get_repositories c4Fetch = .ok ["a"] from rfl] at h
    rw [show spec_list_repositories c4Fetch 1 2 = .ok ["a", "b"] from
      (by simp [spec_list_repositories, c4Fetch])] at h
    simp at h

/-- C4 (amended): repository enumeration performs exactly one page
request: it returns the first page's entries in order when that request
answers 200, and fails with the upstream error carrying the status
otherwise; further pages are never fetched. -/
theorem C4_single_page (fetch : Nat → RepoPage) :
    ((fetch 1).status = 200 → GA.get_repositories fetch = .ok (fetch 1).repos)
    ∧ ((fetch 1).status ≠ 200 → GA.get_repositories fetch = .error (fetch 1).status) := by
  constructor
  · intro h
    simp [GA.get_repositories, h]
  · intro h
    simp [GA.get_repositories, h]

theorem C4_single_page_witness : GA.get_repositories c4Fetch = .ok (c4Fetch 1).repos :=
  (C4_single_page c4Fetch).1 (by decide)

/-! ### scrapping.get_repositories and the absence of a details cache
(scrapping.py lines 12-53)

For every entry of the repositories page the loop fetches the
languages, the contributors and the commits of that repository and
runs `prioritize_files` on it, unconditionally; there is no memo
structure anywhere, so the remote call log records one set of detail
fetches per entry.  `scrapping.prioritize_files` queries only the
branch "main" and returns the empty selection on any non-200. -/

/-- One repository object of the repositories page, with the fields
the loop reads. -/
structure RepoJson where
  name : String
  description : String
  stargazers_count : Nat
  forks_count : Nat
  watchers_count : Nat
  language : String
  size : Nat
deriving DecidableEq

/-- The details dict built for one repository. -/
structure RepoDetails where
  name : String
  description : String
  stars : Nat
  forks : Nat
  watchers : Nat
  primary_language : String
  repo_size_kb : Nat
  languages : List String
  contributors : Nat
  commits : Nat
  prioritized_files : List SelectedFile
deriving DecidableEq

/-- One remote request issued while building the details of a
repository: which endpoint and for which repository. -/
structure RemoteCall where
  kind : String
  repo : String
deriving DecidableEq

/-- The environment of `scrapping.get_repositories`: the repositories
page and the per-repository responses of the detail endpoints. -/
structure SCEnv where
  pageStatus : Nat
  pageRepos : List RepoJson
  languages : String → List String
  contributors : String → Nat
  commits : String → Nat
  tree : String → TreeResp

/-- `scrapping.prioritize_files`: one request of the "main" tree,
empty selection on any non-200 response, the filtered tree otherwise. -/
def SC.prioritize_files (r : TreeResp) : List SelectedFile :=
  if r.status ≠ 200 then [] else SC.code_filter r.tree

/-- One iteration of the details loop of `scrapping.get_repositories`:
the details dict together with the remote requests the iteration
issued. -/
def SC.processRepo (env : SCEnv) (r : RepoJson) : RepoDetails × List RemoteCall :=
  (⟨r.name, r.description, r.stargazers_count, r.forks_count, r.watchers_count,
      r.language, r.size, env.languages r.name, env.contributors r.name,
      env.commits r.name, SC.prioritize_files (env.tree r.name)⟩,
   [⟨"languages", r.name⟩, ⟨"contributors", r.name⟩, ⟨"commits", r.name⟩,
    ⟨"tree", r.name⟩])

/-- The details loop of `scrapping.get_repositories` over the page's
entries, accumulating the details list and the remote call log. -/
def SC.processList (env : SCEnv) : List RepoJson → List RepoDetails × List RemoteCall
  | [] => ([], [])
  | r :: rs =>
    let d := SC.processRepo env r
    let rest := SC.processList env rs
    (d.1 :: rest.1, d.2 ++ rest.2)

/-- `scrapping.get_repositories`: an exception carrying the status on a
non-200 repositories page, otherwise the details loop over its
entries. -/
def SC.get_repositories (env : SCEnv) : Except Nat (List RepoDetails × List RemoteCall) :=
  if env.pageStatus ≠ 200 then .error env.pageStatus
  else .ok (SC.processList env env.pageRepos)

/-- How many times the details of repository `key` were fetched from
the remote side during a run, measured on the languages endpoint. -/
def detailFetchCount (log : List RemoteCall) (key : String) : Nat :=
  (log.filter (fun c => c.kind == "languages" && c.repo == key)).length

/-- A page listing the same repository "r" twice. -/
def c5Json : RepoJson := ⟨"r", "", 0, 0, 0, "", 0⟩

def c5Env : SCEnv :=
  ⟨200, [c5Json, c5Json], fun _ => [], fun _ => 0, fun _ => 0, fun _ => ⟨404, []⟩⟩

/-- C5 (counterexample): on the page listing "r" twice the run fetches
the details of "r" from the remote side twice; there is no cache, so
the remote fetch is not invoked at most once per key per run. -/
theorem C5_counterexample :
    SC.get_repositories c5Env = .ok (SC.processList c5Env [c5Json, c5Json])
    ∧ detailFetchCount (SC.processList c5Env [c5Json, c5Json]).2 "r" = 2
    ∧ ¬ detailFetchCount (SC.processList c5Env [c5Json, c5Json]).2 "r" ≤ 1 := by
  refine ⟨rfl, ?_, ?_⟩ <;>
    simp [SC.processList, SC.processRepo, detailFetchCount, c5Env, c5Json]

/-- C5 (amended): there is no repository-details cache: the details of
a repository are fetched from the remote side once per occurrence of
that repository in the enumeration, so the fetch count for a key
equals the number of entries carrying that name (once per key only
when the enumeration lists each repository once). -/
theorem C5_fetch_per_occurrence (env : SCEnv) (key : String) :
    (env.pageStatus = 200 →
      SC.get_repositories env = .ok (SC.processList env env.pageRepos))
    ∧ ∀ l, detailFetchCount (SC.processList env l).2 key =
        (l.filter (fun r => r.name == key)).length := by
  constructor
  · intro h
    simp [SC.get_repositories, h]
  · intro l
    induction l with
    | nil => rfl
    | cons r rs ih =>
      by_cases hr : r.name == key <;>
        simp [SC.processList, SC.processRepo, detailFetchCount, List.filter_cons, hr] <;>
        simpa [detailFetchCount] using ih

theorem C5_witness :
    SC.get_repositories c5Env = .ok (SC.processList c5Env c5Env.pageRepos) :=
  (C5_fetch_per_occurrence c5Env "r").1 rfl
